import Mathlib

/-!
Verification of the musinsa product-scraping pipeline (src/main.py).

The extraction-and-aggregation core is embedded shallowly:

* Python floats are modelled as exact rationals (ℚ); `None`/`NaN` as `Option.none`.
* A rendered product card is modelled as a bundle of optional text fields,
  following how `get_product_info` accesses the DOM: an optional product-name
  text, an optional non-highlighted price text, an optional highlighted
  (discount) text, and the list of all price-span texts that
  `find_elements` returns.
* `find_elements` returns a (possibly empty) list and never raises
  `NoSuchElementException`; hence the `except` branch guarding the
  original-price scan in the source is dead and is not reachable in the model.
* The source reads the local variable `sale_price_text` inside the
  original-price scan even when the sale-price lookup failed.  Python then
  either reuses the value left over from an earlier card or, when the
  variable was never assigned in this call, raises `UnboundLocalError` at the
  first nonempty price text, which the outer `except Exception` turns into an
  early return of the records accumulated so far.  The model threads that
  variable explicitly and returns the accumulator on that error path.
-/

/-- Characters kept by the regex substitution with pattern [^\d.]: digits and the dot. -/
def keepDigitDot (c : Char) : Bool := c.isDigit || c == '.'

/-- Model of re.sub stripping every character that is not a digit or a dot. -/
def stripNonNum (s : String) : String := String.mk (s.data.filter keepDigitDot)

/-- Natural number read off a list of decimal digit characters, most significant first. -/
def natOfDigits (cs : List Char) : ℕ := cs.foldl (fun a c => 10 * a + (c.toNat - 48)) 0

/-- Value of a digits-and-dots string: integer part plus fractional part. -/
def decimalVal (cs : List Char) : ℚ :=
  let ip := cs.takeWhile (fun c => !(c == '.'))
  let fp := (cs.dropWhile (fun c => !(c == '.'))).tail
  if fp.isEmpty then (natOfDigits ip : ℚ)
  else (natOfDigits ip : ℚ) + (natOfDigits fp : ℚ) / (10 : ℚ) ^ fp.length

/-- Model of Python float() restricted to the strings the strippers can produce:
a digits-and-dots string parses exactly when it has at most one dot and at
least one digit; otherwise float() raises ValueError, modelled as none. -/
def pyFloat (s : String) : Option ℚ :=
  if s.data.all keepDigitDot && decide (s.data.count '.' ≤ 1) && s.data.any (fun c => c.isDigit)
  then some (decimalVal s.data)
  else none

/-- Source extract_price: strip characters outside [0-9.], drop commas
(the strip already removed them), parse as a float, None on ValueError. -/
def extract_price (price_text : String) : Option ℚ :=
  pyFloat (String.mk ((stripNonNum price_text).data.filter (fun c => !(c == ','))))

/-- Source extract_discount_rate: strip characters outside [0-9.] and parse as a float. -/
def extract_discount_rate (rate_text : String) : Option ℚ :=
  pyFloat (stripNonNum rate_text)

/-- One rendered product card as `get_product_info` observes it. -/
structure Card where
  productName? : Option String
  salePriceText? : Option String
  discountRateText? : Option String
  priceTexts : List String
deriving DecidableEq

/-- One row of the products table. -/
structure ProductRecord where
  category : String
  brandName : String
  productName : String
  originalPrice : Option ℚ
  discountRate : Option ℚ
  actualSalePrice : Option ℚ
deriving DecidableEq

/-- actual_sale_price: parse of the non-highlighted price text, None when the span is missing. -/
def cardActual (c : Card) : Option ℚ :=
  match c.salePriceText? with
  | none => none
  | some t => extract_price t

/-- discount_rate: parse of the highlighted price text, None when the span is missing. -/
def cardDiscount (c : Card) : Option ℚ :=
  match c.discountRateText? with
  | none => none
  | some t => extract_discount_rate t

/-- The filter in the original-price scan: the text is nonempty, differs from
the sale-price text, and contains the currency character. -/
def isOrigCandidate (st p : String) : Bool :=
  (!(p == "")) && (!(p == st)) && p.data.contains '원'

/-- original_price from the scan over all price spans: parse of the first
candidate; None when no span qualifies or the parse fails. -/
def origOf (st : String) (ps : List String) : Option ℚ :=
  (ps.find? (isOrigCandidate st)).bind extract_price

/-- The per-card loop of `get_product_info`.  `ls` is the current binding of
the Python local `sale_price_text` (none while it was never assigned in this
call), `seen` is `unique_prices`, `acc` is `products`. -/
def processCards (cat brand : String) (ls : Option String) (seen : List (Option ℚ))
    (acc : List ProductRecord) : List Card → List ProductRecord
  | [] => acc
  | c :: rest =>
    let name := c.productName?.getD "N/A"
    let a := cardActual c
    let ls2 := match c.salePriceText? with
               | some t => some t
               | none => ls
    if a ∈ seen then processCards cat brand ls2 seen acc rest
    else
      match cardDiscount c with
      | none =>
          processCards cat brand ls2 (a :: seen)
            (acc ++ [⟨cat, brand, name, a, none, a⟩]) rest
      | some d =>
          match ls2 with
          | some st =>
              processCards cat brand (some st) (a :: seen)
                (acc ++ [⟨cat, brand, name, origOf st c.priceTexts, some d, a⟩]) rest
          | none =>
              -- sale_price_text was never assigned in this call: the scan hits
              -- UnboundLocalError at the first nonempty price text and the
              -- outer handler returns the records accumulated so far.  When
              -- every price text is empty the short-circuit `price and ...`
              -- never reads the variable and the loop falls through.
              if c.priceTexts.any (fun p => !(p == "")) then acc
              else
                processCards cat brand none (a :: seen)
                  (acc ++ [⟨cat, brand, name, none, some d, a⟩]) rest

/-- Source get_product_info: sentinel row on an empty card collection,
otherwise the per-card loop with fresh local state. -/
def get_product_info (category user_brand_name : String) (cards : List Card) :
    List ProductRecord :=
  if cards.isEmpty then [⟨category, user_brand_name, "X", none, none, none⟩]
  else processCards category user_brand_name none [] [] cards

/-- One aggregated statistics line. -/
structure SummaryRow where
  category : String
  brandName : String
  metric : String
  max : ℚ
  min : ℚ
  avgMaxMin : ℚ
  avg : ℚ
deriving DecidableEq

/-- Fold step computing the running maximum of a list. -/
def oMax (x : ℚ) (o : Option ℚ) : Option ℚ :=
  some (match o with
        | none => x
        | some y => Max.max x y)

/-- Fold step computing the running minimum of a list. -/
def oMin (x : ℚ) (o : Option ℚ) : Option ℚ :=
  some (match o with
        | none => x
        | some y => Min.min x y)

/-- pandas Series.max over a column of rationals. -/
def listMax (l : List ℚ) : Option ℚ := l.foldr oMax none

/-- pandas Series.min over a column of rationals. -/
def listMin (l : List ℚ) : Option ℚ := l.foldr oMin none

/-- pandas Series.mean over the non-absent values of a column. -/
def meanQ (l : List ℚ) : ℚ := l.sum / (l.length : ℚ)

/-- One summary dict as both loops of calculate_summary_stats build it:
Max, Min, Avg Max Min = (max + min) / 2 and Avg over the given values. -/
def statRow (cat bn m : String) (vals : List ℚ) : SummaryRow :=
  let mx := (listMax vals).getD 0
  let mn := (listMin vals).getD 0
  ⟨cat, bn, m, mx, mn, (mx + mn) / 2, meanQ vals⟩

/-- The dropna of the Original Price column of a group. -/
def presentOri (g : List ProductRecord) : List ℚ := g.filterMap (fun r => r.originalPrice)

/-- The dropna of the Actual Sale Price column of a group. -/
def presentAct (g : List ProductRecord) : List ℚ := g.filterMap (fun r => r.actualSalePrice)

/-- The dropna of the Discount Rate column of a group. -/
def presentDisc (g : List ProductRecord) : List ℚ := g.filterMap (fun r => r.discountRate)

/-- The metric label of an original-price line. -/
def oriLabel (n : ℕ) : String := "Original Price (" ++ toString n ++ ")"

/-- The metric label of an actual-sale-price line. -/
def actLabel (s : String) : String := "Actual Sale Price (" ++ s ++ "%)"

/-- Two-digit decimal field with a leading zero. -/
def twoDigits (n : ℕ) : String := (if n < 10 then "0" else "") ++ toString n

/-- Round a / b to the nearest integer, ties to even, for b > 0. -/
def roundHE (a b : ℕ) : ℕ :=
  let fl := a / b
  let r := a % b
  if 2 * r < b then fl
  else if b < 2 * r then fl + 1
  else if fl % 2 = 0 then fl else fl + 1

/-- Python format spec .2f on a rational: two digits after the point,
rounding ties to even. -/
def fmt2 (q : ℚ) : String :=
  let n := roundHE (q.num.natAbs * 100) q.den
  (if q.num < 0 then "-" else "") ++ toString (n / 100) ++ "." ++ twoDigits (n % 100)

/-- Python format spec .2f applied to a possibly-NaN value: pandas yields NaN
for the mean of an all-absent column and format renders it as nan. -/
def fmtPct (o : Option ℚ) : String :=
  match o with
  | none => "nan"
  | some q => fmt2 q

/-- Code-point lexicographic comparison of character lists, the order Python
uses on str and pandas uses to sort group keys. -/
def lexLe : List Char → List Char → Bool
  | [], _ => true
  | _ :: _, [] => false
  | a :: as, b :: bs => if a < b then true else if b < a then false else lexLe as bs

/-- Python string comparison. -/
def strLe (s t : String) : Bool := lexLe s.data t.data

/-- Python tuple comparison on (category, brand-name) group keys. -/
def keyLeB (a b : String × String) : Bool :=
  if a.1 = b.1 then strLe a.2 b.2 else strLe a.1 b.1

/-- Propositional form of `strLe` for the sorting of category keys. -/
def strLeP (s t : String) : Prop := strLe s t = true

/-- Propositional form of `keyLeB` for the sorting of (category, brand) keys. -/
def keyLeP (a b : String × String) : Prop := keyLeB a b = true

/-- Row order used by sort_values on the Category column. -/
def rowLeP (r s : SummaryRow) : Prop := strLe r.category s.category = true

instance : DecidableRel strLeP := fun s t => instDecidableEqBool (strLe s t) true

instance : DecidableRel keyLeP := fun a b => instDecidableEqBool (keyLeB a b) true

instance : DecidableRel rowLeP := fun r s => instDecidableEqBool (strLe r.category s.category) true

/-- The rows of one (Category, Brand Name) group, in input order. -/
def groupKB (records : List ProductRecord) (k : String × String) : List ProductRecord :=
  records.filter (fun r => r.category == k.1 && r.brandName == k.2)

/-- The rows of one Category group, in input order. -/
def groupC (records : List ProductRecord) (c : String) : List ProductRecord :=
  records.filter (fun r => r.category == c)

/-- The distinct (Category, Brand Name) keys in the sorted order groupby yields them. -/
def brandKeys (records : List ProductRecord) : List (String × String) :=
  List.insertionSort keyLeP ((records.map (fun r => (r.category, r.brandName))).dedup)

/-- The distinct Category keys in the sorted order groupby yields them. -/
def catKeys (records : List ProductRecord) : List String :=
  List.insertionSort strLeP ((records.map (fun r => r.category)).dedup)

/-- The original-price line of a brand group, emitted only when the dropna
column is nonempty. -/
def brandOriRows (k : String × String) (g : List ProductRecord) : List SummaryRow :=
  if presentOri g = [] then []
  else [statRow k.1 k.2 (oriLabel (presentOri g).length) (presentOri g)]

/-- The actual-sale-price line of a brand group: the label embeds the mean
discount over the dropna column, or the literal 0 when it is empty. -/
def brandActRows (k : String × String) (g : List ProductRecord) : List SummaryRow :=
  if presentAct g = [] then []
  else [statRow k.1 k.2
          (actLabel (fmt2 (if presentDisc g = [] then 0 else meanQ (presentDisc g))))
          (presentAct g)]

/-- The first loop of calculate_summary_stats over the sorted brand keys. -/
def brandRowsGo (records : List ProductRecord) : List (String × String) → List SummaryRow
  | [] => []
  | k :: ks =>
      brandOriRows k (groupKB records k) ++ brandActRows k (groupKB records k) ++
        brandRowsGo records ks

/-- pandas Series.mean on a full column: skips the absent entries and yields
NaN (none) when every entry is absent. -/
def pandasMeanCol (col : List (Option ℚ)) : Option ℚ :=
  let vs := col.filterMap id
  if vs = [] then none else some (meanQ vs)

/-- The second loop of calculate_summary_stats over the sorted category keys.
`bn` is the current binding of the Python local brand_name, which the
original-price branch reassigns and the actual-sale-price branch reads. -/
def catRowsGo (records : List ProductRecord) (bn : String) : List String → List SummaryRow
  | [] => []
  | c :: cs =>
      let g := groupC records c
      let ori := presentOri g
      let act := presentAct g
      let bn2 := if ori = [] then bn else "ALL (" ++ c ++ ")"
      let r1 : List SummaryRow :=
        if ori = [] then [] else [statRow c bn2 (oriLabel ori.length) ori]
      let r2 : List SummaryRow :=
        if act = [] then []
        else
          let col := g.map (fun r => r.discountRate)
          let adr : Option ℚ := if col = [] then some 0 else pandasMeanCol col
          [statRow c bn2 (actLabel (fmtPct adr)) act]
      r1 ++ r2 ++ catRowsGo records bn2 cs

/-- The binding the Python local brand_name holds when the category loop
starts: the brand of the last key of the first groupby loop.  When that loop
never ran the variable is unbound, but then the category loop is empty too
and the placeholder is never read. -/
def lastBrandName (records : List ProductRecord) : String :=
  match (brandKeys records).getLast? with
  | some k => k.2
  | none => ""

/-- The category_stats list as built by the second loop. -/
def catRows (records : List ProductRecord) : List SummaryRow :=
  catRowsGo records (lastBrandName records) (catKeys records)

/-- Source calculate_summary_stats.  Building the category DataFrame from an
empty list and sorting it by Category raises KeyError, modelled as none;
otherwise the pair of tables is returned, the category table sorted by
Category. -/
def calculate_summary_stats (records : List ProductRecord) :
    Option (List SummaryRow × List SummaryRow) :=
  if catRows records = [] then none
  else some (brandRowsGo records (brandKeys records),
             List.insertionSort rowLeP (catRows records))

/-! ### Order facts about the comparators -/

theorem string_data_inj {s t : String} (h : s.data = t.data) : s = t := by
  cases s; cases t; exact congrArg String.mk h

theorem lexLe_total : ∀ x y : List Char, lexLe x y = true ∨ lexLe y x = true
  | [], _ => Or.inl rfl
  | _ :: _, [] => Or.inr rfl
  | a :: as, b :: bs => by
      rcases lt_trichotomy a b with h | h | h
      · left; simp [lexLe, h]
      · subst h
        simpa [lexLe] using lexLe_total as bs
      · right; simp [lexLe, h]

theorem lexLe_trans :
    ∀ x y z : List Char, lexLe x y = true → lexLe y z = true → lexLe x z = true
  | [], _, _ => fun _ _ => rfl
  | _ :: _, [], _ => fun h _ => by simp [lexLe] at h
  | _ :: _, _ :: _, [] => fun _ h => by simp [lexLe] at h
  | a :: as, b :: bs, c :: cs => by
      intro h1 h2
      by_cases hab : a < b
      · by_cases hbc : b < c
        · simp [lexLe, lt_trans hab hbc]
        · by_cases hcb : c < b
          · simp [lexLe, hbc, hcb] at h2
          · have hbc2 : b = c := le_antisymm (not_lt.mp hcb) (not_lt.mp hbc)
            subst hbc2
            simp [lexLe, hab]
      · by_cases hba : b < a
        · simp [lexLe, hab, hba] at h1
        · have hab2 : a = b := le_antisymm (not_lt.mp hba) (not_lt.mp hab)
          subst hab2
          simp only [lexLe, lt_irrefl, if_neg (lt_irrefl a)] at h1
          by_cases hbc : a < c
          · simp [lexLe, hbc]
          · by_cases hcb : c < a
            · simp [lexLe, hbc, hcb] at h2
            · have hbc2 : a = c := le_antisymm (not_lt.mp hcb) (not_lt.mp hbc)
              subst hbc2
              simp only [lexLe, lt_irrefl, if_neg (lt_irrefl a)] at h2 ⊢
              exact lexLe_trans as bs cs (by simpa using h1) (by simpa using h2)

theorem lexLe_antisymm :
    ∀ x y : List Char, lexLe x y = true → lexLe y x = true → x = y
  | [], [] => fun _ _ => rfl
  | [], _ :: _ => fun _ h => by simp [lexLe] at h
  | _ :: _, [] => fun h _ => by simp [lexLe] at h
  | a :: as, b :: bs => by
      intro h1 h2
      by_cases hab : a < b
      · simp [lexLe, hab, asymm hab] at h2
      · by_cases hba : b < a
        · simp [lexLe, hab, hba] at h1
        · have hab2 : a = b := le_antisymm (not_lt.mp hba) (not_lt.mp hab)
          subst hab2
          simp only [lexLe, lt_irrefl, if_neg (lt_irrefl a)] at h1 h2
          exact congrArg _ (lexLe_antisymm as bs (by simpa using h1) (by simpa using h2))

theorem strLe_total (s t : String) : strLe s t = true ∨ strLe t s = true :=
  lexLe_total s.data t.data

theorem strLe_trans {s t u : String} (h1 : strLe s t = true) (h2 : strLe t u = true) :
    strLe s u = true :=
  lexLe_trans s.data t.data u.data h1 h2

theorem strLe_antisymm {s t : String} (h1 : strLe s t = true) (h2 : strLe t s = true) :
    s = t :=
  string_data_inj (lexLe_antisymm s.data t.data h1 h2)

instance : IsTotal String strLeP := ⟨strLe_total⟩

instance : IsTrans String strLeP := ⟨fun _ _ _ => strLe_trans⟩

instance : IsAntisymm String strLeP := ⟨fun _ _ => strLe_antisymm⟩

theorem keyLeB_total (a b : String × String) : keyLeB a b = true ∨ keyLeB b a = true := by
  unfold keyLeB
  by_cases h : a.1 = b.1
  · simp [h, strLe_total a.2 b.2]
  · simp [h, Ne.symm h, strLe_total a.1 b.1]

theorem keyLeB_trans {a b c : String × String} (h1 : keyLeB a b = true)
    (h2 : keyLeB b c = true) : keyLeB a c = true := by
  by_cases hab : a.1 = b.1
  · rw [keyLeB, if_pos hab] at h1
    by_cases hbc : b.1 = c.1
    · rw [keyLeB, if_pos hbc] at h2
      rw [keyLeB, if_pos (hab.trans hbc)]
      exact strLe_trans h1 h2
    · rw [keyLeB, if_neg hbc] at h2
      rw [keyLeB, if_neg (fun h => hbc (hab.symm.trans h)), hab]
      exact h2
  · rw [keyLeB, if_neg hab] at h1
    by_cases hbc : b.1 = c.1
    · rw [keyLeB, if_pos hbc] at h2
      rw [keyLeB, if_neg (fun h => hab (h.trans hbc.symm)), ← hbc]
      exact h1
    · rw [keyLeB, if_neg hbc] at h2
      by_cases hac : a.1 = c.1
      · rw [← hac] at h2
        exact absurd (strLe_antisymm h1 h2) hab
      · rw [keyLeB, if_neg hac]
        exact strLe_trans h1 h2

theorem keyLeB_antisymm {a b : String × String} (h1 : keyLeB a b = true)
    (h2 : keyLeB b a = true) : a = b := by
  by_cases hab : a.1 = b.1
  · rw [keyLeB, if_pos hab] at h1
    rw [keyLeB, if_pos hab.symm] at h2
    exact Prod.ext hab (strLe_antisymm h1 h2)
  · rw [keyLeB, if_neg hab] at h1
    rw [keyLeB, if_neg (fun h => hab h.symm)] at h2
    exact absurd (strLe_antisymm h1 h2) hab

instance : IsTotal (String × String) keyLeP := ⟨keyLeB_total⟩

instance : IsTrans (String × String) keyLeP := ⟨fun _ _ _ => keyLeB_trans⟩

instance : IsAntisymm (String × String) keyLeP := ⟨fun _ _ => keyLeB_antisymm⟩

instance : IsTotal SummaryRow rowLeP := ⟨fun r s => strLe_total r.category s.category⟩

instance : IsTrans SummaryRow rowLeP := ⟨fun _ _ _ => strLe_trans⟩

/-! ### Extractor lemmas -/

theorem nodup_snoc_actual (acc : List ProductRecord) (seen : List (Option ℚ))
    (hnd : (acc.map fun r => r.actualSalePrice).Nodup)
    (hsub : ∀ r ∈ acc, r.actualSalePrice ∈ seen)
    (q : ProductRecord) (hmem : q.actualSalePrice ∉ seen) :
    ((acc ++ [q]).map fun r => r.actualSalePrice).Nodup ∧
      ∀ r ∈ acc ++ [q], r.actualSalePrice ∈ q.actualSalePrice :: seen := by
  constructor
  · rw [List.map_append]
    refine List.Nodup.append hnd (by simp) ?_
    intro x hx hx2
    simp only [List.map_cons, List.map_nil, List.mem_singleton] at hx2
    subst hx2
    rcases List.mem_map.1 hx with ⟨r, hr, hrx⟩
    exact hmem (hrx ▸ hsub r hr)
  · intro r hr
    rcases List.mem_append.1 hr with h | h
    · exact List.mem_cons_of_mem _ (hsub r h)
    · simp only [List.mem_singleton] at h
      subst h
      exact List.mem_cons_self _ _

theorem processCards_nodup :
    ∀ (cards : List Card) (cat brand : String) (ls : Option String)
      (seen : List (Option ℚ)) (acc : List ProductRecord),
      (acc.map fun r => r.actualSalePrice).Nodup →
      (∀ r ∈ acc, r.actualSalePrice ∈ seen) →
      ((processCards cat brand ls seen acc cards).map fun r => r.actualSalePrice).Nodup := by
  intro cards
  induction cards with
  | nil =>
      intro cat brand ls seen acc hnd _
      simpa only [processCards] using hnd
  | cons c rest ih =>
      intro cat brand ls seen acc hnd hsub
      simp only [processCards]
      by_cases hmem : cardActual c ∈ seen
      · rw [if_pos hmem]
        exact ih _ _ _ _ _ hnd hsub
      · rw [if_neg hmem]
        rcases hd : cardDiscount c with _ | d <;> simp only [hd]
        · obtain ⟨h1, h2⟩ := nodup_snoc_actual acc seen hnd hsub
            ⟨cat, brand, c.productName?.getD "N/A", cardActual c, none, cardActual c⟩ hmem
          exact ih _ _ _ _ _ h1 h2
        · rcases hsp : c.salePriceText? with _ | t <;> simp only [hsp]
          · rcases ls with _ | st
            · by_cases hany : c.priceTexts.any (fun p => !(p == "")) = true
              · rw [if_pos hany]
                exact hnd
              · rw [if_neg hany]
                obtain ⟨h1, h2⟩ := nodup_snoc_actual acc seen hnd hsub
                  ⟨cat, brand, c.productName?.getD "N/A", none, some d, cardActual c⟩ hmem
                exact ih _ _ _ _ _ h1 h2
            · obtain ⟨h1, h2⟩ := nodup_snoc_actual acc seen hnd hsub
                ⟨cat, brand, c.productName?.getD "N/A", origOf st c.priceTexts, some d,
                  cardActual c⟩ hmem
              exact ih _ _ _ _ _ h1 h2
          · obtain ⟨h1, h2⟩ := nodup_snoc_actual acc seen hnd hsub
              ⟨cat, brand, c.productName?.getD "N/A", origOf t c.priceTexts, some d,
                cardActual c⟩ hmem
            exact ih _ _ _ _ _ h1 h2

theorem processCards_no_discount :
    ∀ (cards : List Card) (cat brand : String) (ls : Option String)
      (seen : List (Option ℚ)) (acc : List ProductRecord),
      (∀ r ∈ acc, r.discountRate = none → r.originalPrice = r.actualSalePrice) →
      ∀ r ∈ processCards cat brand ls seen acc cards,
        r.discountRate = none → r.originalPrice = r.actualSalePrice := by
  intro cards
  induction cards with
  | nil =>
      intro cat brand ls seen acc hacc r hr
      rw [processCards] at hr
      exact hacc r hr
  | cons c rest ih =>
      intro cat brand ls seen acc hacc r hr
      simp only [processCards] at hr
      by_cases hmem : cardActual c ∈ seen
      · rw [if_pos hmem] at hr
        exact ih _ _ _ _ _ hacc r hr
      · rw [if_neg hmem] at hr
        rcases hd : cardDiscount c with _ | d <;> simp only [hd] at hr
        · refine ih _ _ _ _ _ ?_ r hr
          intro r2 hr2
          rcases List.mem_append.1 hr2 with h | h
          · exact hacc r2 h
          · simp only [List.mem_singleton] at h
            subst h
            intro _
            rfl
        · rcases hsp : c.salePriceText? with _ | t <;> simp only [hsp] at hr
          · rcases ls with _ | st
            · by_cases hany : c.priceTexts.any (fun p => !(p == "")) = true
              · rw [if_pos hany] at hr
                exact hacc r hr
              · rw [if_neg hany] at hr
                refine ih _ _ _ _ _ ?_ r hr
                intro r2 hr2
                rcases List.mem_append.1 hr2 with h | h
                · exact hacc r2 h
                · simp only [List.mem_singleton] at h
                  subst h
                  intro hcontra
                  simp at hcontra
            · refine ih _ _ _ _ _ ?_ r hr
              intro r2 hr2
              rcases List.mem_append.1 hr2 with h | h
              · exact hacc r2 h
              · simp only [List.mem_singleton] at h
                subst h
                intro hcontra
                simp at hcontra
          · refine ih _ _ _ _ _ ?_ r hr
            intro r2 hr2
            rcases List.mem_append.1 hr2 with h | h
            · exact hacc r2 h
            · simp only [List.mem_singleton] at h
              subst h
              intro hcontra
              simp at hcontra

/-- Claim C2: every ProductRecord emitted by get_product_info with an absent
discountRate has originalPrice equal to actualSalePrice (the two Option
values coincide, so both are present or both absent). -/
theorem extract_no_discount_invariant (cat brand : String) (cards : List Card)
    (r : ProductRecord) (hr : r ∈ get_product_info cat brand cards)
    (hd : r.discountRate = none) : r.originalPrice = r.actualSalePrice := by
  rw [get_product_info] at hr
  by_cases he : cards.isEmpty
  · rw [if_pos he] at hr
    simp only [List.mem_singleton] at hr
    subst hr
    rfl
  · rw [if_neg he] at hr
    exact processCards_no_discount cards cat brand none [] [] (by simp) r hr hd

/-- Witness for C2 at a concrete input: the sentinel record of the empty
card list satisfies the invariant. -/
theorem extract_no_discount_invariant_witness :
    (⟨"top", "brandx", "X", none, none, none⟩ : ProductRecord).originalPrice =
      (⟨"top", "brandx", "X", none, none, none⟩ : ProductRecord).actualSalePrice :=
  extract_no_discount_invariant "top" "brandx" []
    ⟨"top", "brandx", "X", none, none, none⟩ (by simp [get_product_info]) rfl

/-- Claim C7: on an empty raw card collection, get_product_info returns
exactly the sentinel record: productName X and all three price fields absent. -/
theorem extract_empty_sentinel (cat brand : String) :
    get_product_info cat brand [] = [⟨cat, brand, "X", none, none, none⟩] := by
  simp [get_product_info]

/-- Claim C3: within one invocation, no two emitted records share an
actualSalePrice value (absent counting as one value); a card whose parsed
sale price is already in the seen set is skipped entirely, changing nothing
but the sale-price-text local; and two cards with the same sale-price text
yield exactly one record. -/
theorem extract_dedup :
    (∀ (cat brand : String) (cards : List Card),
        ((get_product_info cat brand cards).map fun r => r.actualSalePrice).Nodup) ∧
    (∀ (cat brand : String) (ls : Option String) (seen : List (Option ℚ))
        (acc : List ProductRecord) (c : Card) (rest : List Card),
        cardActual c ∈ seen →
        processCards cat brand ls seen acc (c :: rest) =
          processCards cat brand
            (match c.salePriceText? with
             | some t => some t
             | none => ls) seen acc rest) ∧
    (∀ (cat brand : String) (c₁ c₂ : Card) (t : String),
        c₁.salePriceText? = some t → c₂.salePriceText? = some t →
        (get_product_info cat brand [c₁, c₂]).length = 1) := by
  refine ⟨?_, ?_, ?_⟩
  · intro cat brand cards
    rw [get_product_info]
    by_cases he : cards.isEmpty
    · rw [if_pos he]
      simp
    · rw [if_neg he]
      exact processCards_nodup cards cat brand none [] [] (by simp) (by simp)
  · intro cat brand ls seen acc c rest hmem
    simp only [processCards]
    rw [if_pos hmem]
  · intro cat brand c₁ c₂ t h1 h2
    have ha : cardActual c₂ = cardActual c₁ := by
      simp only [cardActual, h1, h2]
    rw [get_product_info]
    rw [if_neg (by simp)]
    rcases hd : cardDiscount c₁ with _ | d <;>
      simp [processCards, h1, hd, ha]

/-- Witness for C3 at a concrete input: two cards with the same sale-price
text produce a single record. -/
theorem extract_dedup_witness :
    (get_product_info "top" "brandx"
      [⟨some "P", some "9,900원", none, ["9,900원"]⟩,
       ⟨some "P", some "9,900원", none, ["9,900원"]⟩]).length = 1 :=
  extract_dedup.2.2 "top" "brandx"
    ⟨some "P", some "9,900원", none, ["9,900원"]⟩
    ⟨some "P", some "9,900원", none, ["9,900원"]⟩ "9,900원" rfl rfl

/-- Claim C1 counterexample: a card with a parsed discount rate whose only
price span equals the sale-price text.  The emitted record has
originalPrice absent, not equal to its present actualSalePrice, so the
stated fallback to actualSalePrice does not happen. -/
theorem extract_discount_fallback_cex :
    get_product_info "top" "brandx"
        [⟨some "P", some "1,000원", some "10%", ["1,000원"]⟩] =
      [⟨"top", "brandx", "P", none, some 10, some 1000⟩] ∧
    (⟨"top", "brandx", "P", none, some 10, some 1000⟩ : ProductRecord).originalPrice ≠
      (⟨"top", "brandx", "P", none, some 10, some 1000⟩ : ProductRecord).actualSalePrice := by
  constructor
  · simp [get_product_info, processCards, cardActual, cardDiscount, origOf, isOrigCandidate,
      extract_price, extract_discount_rate, stripNonNum, pyFloat, keepDigitDot, decimalVal,
      natOfDigits]
  · simp

/-- Claim C1 amended: when the discount rate parses, the sale-price text is
present, the card passes the dedup gate, and no price span qualifies as an
original-price candidate, the emitted record has originalPrice absent (the
except-branch fallback to actualSalePrice in the source is dead code, since
find_elements returns a list and never raises). -/
theorem extract_discount_no_candidate_orig_none
    (cat brand : String) (ls : Option String) (seen : List (Option ℚ))
    (acc : List ProductRecord) (c : Card) (rest : List Card) (st : String) (d : ℚ)
    (hsp : c.salePriceText? = some st)
    (hd : cardDiscount c = some d)
    (hfind : c.priceTexts.find? (isOrigCandidate st) = none)
    (hmem : cardActual c ∉ seen) :
    processCards cat brand ls seen acc (c :: rest) =
      processCards cat brand (some st) (cardActual c :: seen)
        (acc ++ [⟨cat, brand, c.productName?.getD "N/A", none, some d, cardActual c⟩])
        rest := by
  conv_lhs => rw [processCards]
  simp only [hsp, hd]
  rw [if_neg hmem]
  simp only [origOf, hfind, Option.none_bind]

/-- Witness for the amended C1 at a concrete input. -/
theorem extract_discount_no_candidate_orig_none_witness :
    processCards "top" "brandx" none [] []
        [Card.mk (some "P") (some "1,000원") (some "10%") ["1,000원"]] =
      processCards "top" "brandx" (some "1,000원")
        [cardActual (Card.mk (some "P") (some "1,000원") (some "10%") ["1,000원"])]
        ([] ++ [ProductRecord.mk "top" "brandx"
          ((Card.mk (some "P") (some "1,000원") (some "10%")
            ["1,000원"]).productName?.getD "N/A")
          none (some 10)
          (cardActual (Card.mk (some "P") (some "1,000원") (some "10%") ["1,000원"]))])
        [] :=
  extract_discount_no_candidate_orig_none "top" "brandx" none [] []
    (Card.mk (some "P") (some "1,000원") (some "10%") ["1,000원"]) [] "1,000원" 10 rfl
    (by simp [cardDiscount, extract_discount_rate, stripNonNum, pyFloat, keepDigitDot,
      decimalVal, natOfDigits])
    (by simp [isOrigCandidate])
    (by simp)

/-- Claim C8: extract_price strips every character that is not a digit or a
dot and parses the remainder (the comma removal after the strip is a no-op),
with the given concrete values, and extract_discount_rate drops the sign of
a negative-looking rate. -/
theorem parse_price_spec :
    (∀ s : String, extract_price s = pyFloat (stripNonNum s)) ∧
    extract_price "₩12,345" = some 12345 ∧
    extract_price "free" = none ∧
    extract_price "" = none ∧
    extract_discount_rate "-15%" = some 15 := by
  refine ⟨?_, ?_, ?_, ?_, ?_⟩
  · intro s
    rw [extract_price]
    apply congrArg pyFloat
    rw [stripNonNum]
    apply congrArg String.mk
    show (s.data.filter keepDigitDot).filter (fun c => !(c == ',')) = s.data.filter keepDigitDot
    apply List.filter_eq_self.mpr
    intro c hc
    have hk : keepDigitDot c = true := (List.mem_filter.1 hc).2
    simp only [keepDigitDot, Bool.or_eq_true, beq_iff_eq] at hk
    rcases hk with h | h
    · have hne : c ≠ ',' := fun he => absurd (he ▸ h) (by decide)
      simpa using hne
    · subst h
      decide
  · simp [extract_price, stripNonNum, pyFloat, keepDigitDot, decimalVal, natOfDigits]
  · simp [extract_price, stripNonNum, pyFloat, keepDigitDot]
  · simp [extract_price, stripNonNum, pyFloat, keepDigitDot]
  · simp [extract_discount_rate, stripNonNum, pyFloat, keepDigitDot, decimalVal, natOfDigits]

/-! ### Aggregator lemmas -/

/-- Claim C4: evaluation at a failing input.  The single record has a
discount but no original price, so the category loop never executes the
branch that assigns the ALL label, and the category rollup row keeps the
stale brand_name binding B left over from the brand loop. -/
theorem category_rollup_stale_brand_eval :
    calculate_summary_stats [⟨"A", "B", "P", none, some 10, some 90⟩] =
      some ([⟨"A", "B", "Actual Sale Price (10.00%)", 90, 90, 90, 90⟩],
            [⟨"A", "B", "Actual Sale Price (10.00%)", 90, 90, 90, 90⟩]) ∧
    ("B" : String) ≠ "ALL (A)" := by
  constructor
  · simp [calculate_summary_stats, catRows, catRowsGo, catKeys, brandRowsGo, brandKeys,
      groupKB, groupC, presentOri, presentAct, presentDisc, brandOriRows, brandActRows,
      statRow, listMax, listMin, oMax, oMin, meanQ, lastBrandName, fmt2, fmtPct,
      pandasMeanCol, oriLabel, actLabel, roundHE, twoDigits, lexLe, strLe, keyLeB,
      strLeP, keyLeP, rowLeP, List.insertionSort, List.orderedInsert,
      Rat.num_ofNat, Rat.den_ofNat]
    decide
  · decide

/-- Claim C5: evaluation at a failing input.  The group has a present actual
sale price and no present discount.  The brand-level label embeds 0.00 as the
claim states, but the category-level guard tests the whole column instead of
its dropna, so the mean of the all-absent column is NaN and the label embeds
nan instead of 0. -/
theorem category_discount_label_nan_eval :
    calculate_summary_stats [⟨"A", "B", "P", some 100, none, some 100⟩] =
      some ([⟨"A", "B", "Original Price (1)", 100, 100, 100, 100⟩,
             ⟨"A", "B", "Actual Sale Price (0.00%)", 100, 100, 100, 100⟩],
            [⟨"A", "ALL (A)", "Original Price (1)", 100, 100, 100, 100⟩,
             ⟨"A", "ALL (A)", "Actual Sale Price (nan%)", 100, 100, 100, 100⟩]) ∧
    ("Actual Sale Price (nan%)" : String) ≠ actLabel (fmt2 0) := by
  constructor
  · simp [calculate_summary_stats, catRows, catRowsGo, catKeys, brandRowsGo, brandKeys,
      groupKB, groupC, presentOri, presentAct, presentDisc, brandOriRows, brandActRows,
      statRow, listMax, listMin, oMax, oMin, meanQ, lastBrandName, fmt2, fmtPct,
      pandasMeanCol, oriLabel, actLabel, roundHE, twoDigits, lexLe, strLe, keyLeB,
      strLeP, keyLeP, rowLeP, List.insertionSort, List.orderedInsert]
    decide
  · simp only [actLabel, fmt2, roundHE, twoDigits, Rat.num_ofNat, Rat.den_ofNat]
    decide

theorem catRowsGo_ne_nil :
    ∀ (cats : List String) (records : List ProductRecord) (bn : String),
      catRowsGo records bn cats ≠ [] →
      ∃ r ∈ records, r.originalPrice.isSome = true ∨ r.actualSalePrice.isSome = true := by
  intro cats
  induction cats with
  | nil => intro records bn hne; simp [catRowsGo] at hne
  | cons c cs ih =>
      intro records bn hne
      by_cases h1 : presentOri (groupC records c) = []
      · by_cases h2 : presentAct (groupC records c) = []
        · simp [catRowsGo, h1, h2] at hne
          exact ih records _ hne
        · obtain ⟨v, hv⟩ := List.exists_mem_of_ne_nil _ h2
          rcases List.mem_filterMap.1 hv with ⟨r, hrg, hra⟩
          exact ⟨r, (List.mem_filter.1 hrg).1, Or.inr (by rw [hra]; rfl)⟩
      · obtain ⟨v, hv⟩ := List.exists_mem_of_ne_nil _ h1
        rcases List.mem_filterMap.1 hv with ⟨r, hrg, hro⟩
        exact ⟨r, (List.mem_filter.1 hrg).1, Or.inl (by rw [hro]; rfl)⟩

/-- Claim C10: on a nonempty all-absent input (a sentinel record) the
aggregator raises instead of returning empty tables, and in general it
succeeds only when some record carries a present price value. -/
theorem summarize_all_absent_error :
    calculate_summary_stats [⟨"catA", "brandA", "X", none, none, none⟩] = none ∧
    ∀ records : List ProductRecord, (calculate_summary_stats records).isSome = true →
      ∃ r ∈ records, r.originalPrice.isSome = true ∨ r.actualSalePrice.isSome = true := by
  constructor
  · simp [calculate_summary_stats, catRows, catRowsGo, catKeys, groupC,
      presentOri, presentAct, lastBrandName, brandKeys, List.insertionSort,
      List.orderedInsert]
  · intro records h
    rw [calculate_summary_stats] at h
    by_cases hc : catRows records = []
    · rw [if_pos hc] at h
      simp at h
    · exact catRowsGo_ne_nil (catKeys records) records (lastBrandName records) hc

/-- Witness for C10 at a concrete input with a present price. -/
theorem summarize_all_absent_error_witness :
    ∃ r ∈ [(⟨"catB", "brandB", "P", none, none, some 90⟩ : ProductRecord)],
      r.originalPrice.isSome = true ∨ r.actualSalePrice.isSome = true :=
  summarize_all_absent_error.2 [⟨"catB", "brandB", "P", none, none, some 90⟩]
    (by simp [calculate_summary_stats, catRows, catRowsGo, catKeys, groupC,
      presentOri, presentAct, presentDisc, lastBrandName, brandKeys, statRow,
      listMax, listMin, oMax, oMin, meanQ, fmtPct, pandasMeanCol, actLabel,
      List.insertionSort, List.orderedInsert])

theorem mem_brandRowsGo :
    ∀ (ks : List (String × String)) (records : List ProductRecord) (row : SummaryRow),
      row ∈ brandRowsGo records ks →
      row.avgMaxMin = (row.max + row.min) / 2 ∧
      ((∃ n, row.metric = oriLabel n ∧
          presentOri (groupKB records (row.category, row.brandName)) ≠ []) ∨
       (∃ s2, row.metric = actLabel s2 ∧
          presentAct (groupKB records (row.category, row.brandName)) ≠ [])) := by
  intro ks
  induction ks with
  | nil => intro records row hrow; simp [brandRowsGo] at hrow
  | cons k ks ih =>
      intro records row hrow
      simp only [brandRowsGo, List.append_assoc, List.mem_append] at hrow
      rcases hrow with h | h | h
      · rw [brandOriRows] at h
        by_cases hne : presentOri (groupKB records k) = []
        · rw [if_pos hne] at h
          simp at h
        · rw [if_neg hne] at h
          simp only [List.mem_singleton] at h
          subst h
          refine ⟨rfl, Or.inl ⟨(presentOri (groupKB records k)).length, rfl, ?_⟩⟩
          simpa [statRow] using hne
      · rw [brandActRows] at h
        by_cases hne : presentAct (groupKB records k) = []
        · rw [if_pos hne] at h
          simp at h
        · rw [if_neg hne] at h
          simp only [List.mem_singleton] at h
          subst h
          refine ⟨rfl, Or.inr ⟨_, rfl, ?_⟩⟩
          simpa [statRow] using hne
      · exact ih records row h

theorem mem_catRowsGo :
    ∀ (cats : List String) (records : List ProductRecord) (bn : String) (row : SummaryRow),
      row ∈ catRowsGo records bn cats →
      row.avgMaxMin = (row.max + row.min) / 2 ∧
      ((∃ n, row.metric = oriLabel n ∧ presentOri (groupC records row.category) ≠ []) ∨
       (∃ s2, row.metric = actLabel s2 ∧ presentAct (groupC records row.category) ≠ [])) := by
  intro cats
  induction cats with
  | nil => intro records bn row hrow; simp [catRowsGo] at hrow
  | cons c cs ih =>
      intro records bn row hrow
      simp only [catRowsGo, List.append_assoc, List.mem_append] at hrow
      rcases hrow with h | h | h
      · by_cases hne : presentOri (groupC records c) = []
        · rw [if_pos hne] at h
          simp at h
        · rw [if_neg hne] at h
          simp only [List.mem_singleton] at h
          subst h
          refine ⟨rfl, Or.inl ⟨(presentOri (groupC records c)).length, rfl, ?_⟩⟩
          simpa [statRow] using hne
      · by_cases hne : presentAct (groupC records c) = []
        · rw [if_pos hne] at h
          simp at h
        · rw [if_neg hne] at h
          simp only [List.mem_singleton] at h
          subst h
          refine ⟨rfl, Or.inr ⟨_, rfl, ?_⟩⟩
          simpa [statRow] using hne
      · exact ih records _ row h

/-- Claim C6: every emitted SummaryRow satisfies avgMaxMin = (max + min) / 2
exactly, and a row for a field is emitted only if the dropna of that field
over the row's group is nonempty: original-price rows require a present
originalPrice in the group and actual-sale-price rows a present
actualSalePrice (brand rows are keyed by (category, brandName), category
rollup rows by category alone). -/
theorem summary_midrange_emission
    (records : List ProductRecord) (bs cs : List SummaryRow)
    (h : calculate_summary_stats records = some (bs, cs)) :
    (∀ row ∈ bs ++ cs, row.avgMaxMin = (row.max + row.min) / 2) ∧
    (∀ row ∈ bs,
      (∃ n, row.metric = oriLabel n ∧
         presentOri (groupKB records (row.category, row.brandName)) ≠ []) ∨
      (∃ s2, row.metric = actLabel s2 ∧
         presentAct (groupKB records (row.category, row.brandName)) ≠ [])) ∧
    (∀ row ∈ cs,
      (∃ n, row.metric = oriLabel n ∧ presentOri (groupC records row.category) ≠ []) ∨
      (∃ s2, row.metric = actLabel s2 ∧ presentAct (groupC records row.category) ≠ [])) := by
  rw [calculate_summary_stats] at h
  by_cases hc : catRows records = []
  · rw [if_pos hc] at h
    exact absurd h (by simp)
  · rw [if_neg hc] at h
    simp only [Option.some.injEq, Prod.mk.injEq] at h
    obtain ⟨hbs, hcs⟩ := h
    have hcs2 : ∀ row ∈ cs, row ∈ catRows records := by
      intro row hrow
      rw [← hcs] at hrow
      exact (List.perm_insertionSort rowLeP (catRows records)).subset hrow
    refine ⟨?_, ?_, ?_⟩
    · intro row hrow
      rcases List.mem_append.1 hrow with h2 | h2
      · exact (mem_brandRowsGo (brandKeys records) records row (hbs ▸ h2)).1
      · exact (mem_catRowsGo (catKeys records) records (lastBrandName records) row
          (hcs2 row h2)).1
    · intro row hrow
      exact (mem_brandRowsGo (brandKeys records) records row (hbs ▸ hrow)).2
    · intro row hrow
      exact (mem_catRowsGo (catKeys records) records (lastBrandName records) row
        (hcs2 row hrow)).2

/-- Witness for C6 at a concrete input and row. -/
theorem summary_midrange_emission_witness :
    (⟨"A", "B", "Original Price (1)", 100, 100, 100, 100⟩ : SummaryRow).avgMaxMin =
      ((⟨"A", "B", "Original Price (1)", 100, 100, 100, 100⟩ : SummaryRow).max +
        (⟨"A", "B", "Original Price (1)", 100, 100, 100, 100⟩ : SummaryRow).min) / 2 :=
  (summary_midrange_emission [⟨"A", "B", "P", some 100, none, some 100⟩]
    [⟨"A", "B", "Original Price (1)", 100, 100, 100, 100⟩,
     ⟨"A", "B", "Actual Sale Price (0.00%)", 100, 100, 100, 100⟩]
    [⟨"A", "ALL (A)", "Original Price (1)", 100, 100, 100, 100⟩,
     ⟨"A", "ALL (A)", "Actual Sale Price (nan%)", 100, 100, 100, 100⟩]
    (by
      simp [calculate_summary_stats, catRows, catRowsGo, catKeys, brandRowsGo, brandKeys,
        groupKB, groupC, presentOri, presentAct, presentDisc, brandOriRows, brandActRows,
        statRow, listMax, listMin, oMax, oMin, meanQ, lastBrandName, fmt2, fmtPct,
        pandasMeanCol, oriLabel, actLabel, roundHE, twoDigits, lexLe, strLe, keyLeB,
        strLeP, keyLeP, rowLeP, List.insertionSort, List.orderedInsert]
      decide)).1
    ⟨"A", "B", "Original Price (1)", 100, 100, 100, 100⟩
    (List.mem_append_left _ (List.mem_cons_self _ _))

instance : LeftCommutative oMax := ⟨by
  intro a b o
  cases o <;> simp [oMax, max_comm, max_left_comm]⟩

instance : LeftCommutative oMin := ⟨by
  intro a b o
  cases o <;> simp [oMin, min_comm, min_left_comm]⟩

theorem listMax_perm {v w : List ℚ} (h : v.Perm w) : listMax v = listMax w :=
  h.foldr_eq none

theorem listMin_perm {v w : List ℚ} (h : v.Perm w) : listMin v = listMin w :=
  h.foldr_eq none

theorem meanQ_perm {v w : List ℚ} (h : v.Perm w) : meanQ v = meanQ w := by
  rw [meanQ, meanQ, h.sum_eq, h.length_eq]

theorem perm_nil_iff {α : Type} {v w : List α} (h : v.Perm w) : v = [] ↔ w = [] := by
  constructor
  · intro he
    subst he
    exact h.symm.eq_nil
  · intro he
    subst he
    exact h.eq_nil

theorem statRow_perm {v w : List ℚ} (h : v.Perm w) (cat bn m : String) :
    statRow cat bn m v = statRow cat bn m w := by
  simp [statRow, listMax_perm h, listMin_perm h, meanQ_perm h]

theorem brandOriRows_perm (k : String × String) {g₁ g₂ : List ProductRecord}
    (h : g₁.Perm g₂) : brandOriRows k g₁ = brandOriRows k g₂ := by
  have hp : (presentOri g₁).Perm (presentOri g₂) := h.filterMap _
  rw [brandOriRows, brandOriRows]
  by_cases he : presentOri g₁ = []
  · rw [if_pos he, if_pos ((perm_nil_iff hp).1 he)]
  · rw [if_neg he, if_neg (fun h2 => he ((perm_nil_iff hp).2 h2))]
    rw [hp.length_eq, statRow_perm hp]

theorem brandActRows_perm (k : String × String) {g₁ g₂ : List ProductRecord}
    (h : g₁.Perm g₂) : brandActRows k g₁ = brandActRows k g₂ := by
  have hp : (presentAct g₁).Perm (presentAct g₂) := h.filterMap _
  have hpd : (presentDisc g₁).Perm (presentDisc g₂) := h.filterMap _
  rw [brandActRows, brandActRows]
  by_cases he : presentAct g₁ = []
  · rw [if_pos he, if_pos ((perm_nil_iff hp).1 he)]
  · rw [if_neg he, if_neg (fun h2 => he ((perm_nil_iff hp).2 h2))]
    have hd : (if presentDisc g₁ = [] then (0 : ℚ) else meanQ (presentDisc g₁)) =
        (if presentDisc g₂ = [] then (0 : ℚ) else meanQ (presentDisc g₂)) := by
      by_cases hde : presentDisc g₁ = []
      · rw [if_pos hde, if_pos ((perm_nil_iff hpd).1 hde)]
      · rw [if_neg hde, if_neg (fun h2 => hde ((perm_nil_iff hpd).2 h2)),
          meanQ_perm hpd]
    rw [hd, statRow_perm hp]

theorem pandasMeanCol_perm {c₁ c₂ : List (Option ℚ)} (h : c₁.Perm c₂) :
    pandasMeanCol c₁ = pandasMeanCol c₂ := by
  have hp : (c₁.filterMap id).Perm (c₂.filterMap id) := h.filterMap _
  rw [pandasMeanCol, pandasMeanCol]
  by_cases he : c₁.filterMap id = []
  · simp only [he, (perm_nil_iff hp).1 he]
  · simp only [if_neg he, if_neg (fun h2 => he ((perm_nil_iff hp).2 h2)),
      meanQ_perm hp]

theorem brandKeys_perm {l₁ l₂ : List ProductRecord} (h : l₁.Perm l₂) :
    brandKeys l₁ = brandKeys l₂ := by
  have hd : ((l₁.map fun r => (r.category, r.brandName)).dedup).Perm
      ((l₂.map fun r => (r.category, r.brandName)).dedup) := (h.map _).dedup
  exact List.eq_of_perm_of_sorted
    ((List.perm_insertionSort keyLeP _).trans
      (hd.trans (List.perm_insertionSort keyLeP _).symm))
    (List.sorted_insertionSort keyLeP _)
    (List.sorted_insertionSort keyLeP _)

theorem catKeys_perm {l₁ l₂ : List ProductRecord} (h : l₁.Perm l₂) :
    catKeys l₁ = catKeys l₂ := by
  have hd : ((l₁.map fun r => r.category).dedup).Perm
      ((l₂.map fun r => r.category).dedup) := (h.map _).dedup
  exact List.eq_of_perm_of_sorted
    ((List.perm_insertionSort strLeP _).trans
      (hd.trans (List.perm_insertionSort strLeP _).symm))
    (List.sorted_insertionSort strLeP _)
    (List.sorted_insertionSort strLeP _)

theorem brandRowsGo_perm {l₁ l₂ : List ProductRecord} (h : l₁.Perm l₂) :
    ∀ ks : List (String × String), brandRowsGo l₁ ks = brandRowsGo l₂ ks := by
  intro ks
  induction ks with
  | nil => rfl
  | cons k ks ih =>
      have hg : (groupKB l₁ k).Perm (groupKB l₂ k) := h.filter _
      rw [brandRowsGo, brandRowsGo, ih, brandOriRows_perm k hg, brandActRows_perm k hg]

theorem catRowsGo_perm {l₁ l₂ : List ProductRecord} (h : l₁.Perm l₂) :
    ∀ (cats : List String) (bn : String), catRowsGo l₁ bn cats = catRowsGo l₂ bn cats := by
  intro cats
  induction cats with
  | nil => intro bn; rfl
  | cons c cs ih =>
      intro bn
      have hg : (groupC l₁ c).Perm (groupC l₂ c) := h.filter _
      have hpo : (presentOri (groupC l₁ c)).Perm (presentOri (groupC l₂ c)) :=
        hg.filterMap _
      have hpa : (presentAct (groupC l₁ c)).Perm (presentAct (groupC l₂ c)) :=
        hg.filterMap _
      have hcol : ((groupC l₁ c).map fun r => r.discountRate).Perm
          ((groupC l₂ c).map fun r => r.discountRate) := hg.map _
      simp only [catRowsGo]
      by_cases ho : presentOri (groupC l₁ c) = []
      · have ho2 : presentOri (groupC l₂ c) = [] := (perm_nil_iff hpo).1 ho
        rw [if_pos ho, if_pos ho2, if_pos ho, if_pos ho2, ih]
        by_cases ha : presentAct (groupC l₁ c) = []
        · rw [if_pos ha, if_pos ((perm_nil_iff hpa).1 ha)]
        · rw [if_neg ha, if_neg (fun h2 => ha ((perm_nil_iff hpa).2 h2))]
          have hcolnil : ((groupC l₁ c).map fun r => r.discountRate) = [] ↔
              ((groupC l₂ c).map fun r => r.discountRate) = [] := perm_nil_iff hcol
          by_cases hce : ((groupC l₁ c).map fun r => r.discountRate) = []
          · rw [if_pos hce, if_pos (hcolnil.1 hce), statRow_perm hpa]
          · rw [if_neg hce, if_neg (fun h2 => hce (hcolnil.2 h2)),
              pandasMeanCol_perm hcol, statRow_perm hpa]
      · have ho2 : presentOri (groupC l₂ c) = [] → False :=
          fun h2 => ho ((perm_nil_iff hpo).2 h2)
        rw [if_neg ho, if_neg ho2, if_neg ho, if_neg ho2, ih, hpo.length_eq,
          statRow_perm hpo]
        by_cases ha : presentAct (groupC l₁ c) = []
        · rw [if_pos ha, if_pos ((perm_nil_iff hpa).1 ha)]
        · rw [if_neg ha, if_neg (fun h2 => ha ((perm_nil_iff hpa).2 h2))]
          by_cases hce : ((groupC l₁ c).map fun r => r.discountRate) = []
          · rw [if_pos hce, if_pos ((perm_nil_iff hcol).1 hce), statRow_perm hpa]
          · rw [if_neg hce, if_neg (fun h2 => hce ((perm_nil_iff hcol).2 h2)),
              pandasMeanCol_perm hcol, statRow_perm hpa]

/-- Claim C9: permuting the input records leaves every computed summary
unchanged (same rows, statistics and labels per group), and the category
summary is sorted ascending by category. -/
theorem summarize_perm_invariant (l₁ l₂ : List ProductRecord) (h : l₁.Perm l₂) :
    calculate_summary_stats l₁ = calculate_summary_stats l₂ ∧
    ∀ bs cs, calculate_summary_stats l₁ = some (bs, cs) → cs.Sorted rowLeP := by
  have hlast : lastBrandName l₁ = lastBrandName l₂ := by
    rw [lastBrandName, lastBrandName, brandKeys_perm h]
  have hcat : catRows l₁ = catRows l₂ := by
    rw [catRows, catRows, hlast, catKeys_perm h]
    exact catRowsGo_perm h _ _
  constructor
  · rw [calculate_summary_stats, calculate_summary_stats, hcat, brandKeys_perm h,
      brandRowsGo_perm h]
  · intro bs cs hsome
    rw [calculate_summary_stats] at hsome
    by_cases hc : catRows l₁ = []
    · rw [if_pos hc] at hsome
      exact absurd hsome (by simp)
    · rw [if_neg hc] at hsome
      simp only [Option.some.injEq, Prod.mk.injEq] at hsome
      rw [← hsome.2]
      exact List.sorted_insertionSort rowLeP (catRows l₁)

/-- Witness for C9 at a concrete input: swapping two records changes nothing. -/
theorem summarize_perm_invariant_witness :
    calculate_summary_stats
        [⟨"A", "B", "P", some 100, none, some 100⟩,
         ⟨"C", "D", "Q", some 200, none, some 200⟩] =
      calculate_summary_stats
        [⟨"C", "D", "Q", some 200, none, some 200⟩,
         ⟨"A", "B", "P", some 100, none, some 100⟩] :=
  (summarize_perm_invariant
    [⟨"A", "B", "P", some 100, none, some 100⟩,
     ⟨"C", "D", "Q", some 200, none, some 200⟩]
    [⟨"C", "D", "Q", some 200, none, some 200⟩,
     ⟨"A", "B", "P", some 100, none, some 100⟩]
    (List.Perm.swap _ _ [])).1
